import Mathlib

/-!
# Verification of `scripts/format_testcases.py`

A shallow embedding of the test-case formatting script. The script reads a
JSON API response (`test-cases-response.json`), renders one Markdown file per
test-case record into the `test-cases/` directory, and renders a summary
`INDEX.md`. Optional JSON fields are modelled as `Option` values (an absent
dictionary key is `none`); Python truthiness of strings/lists/dicts is made
explicit at each use site. File-system effects are modelled as a flat
association list from file names (within `test-cases/`) to file contents.

Library functions used by the script are modelled as follows:

* `datetime.fromisoformat` — modelled by `TCFmt.fromisoformat` from its
  documented pre-3.11 grammar `YYYY-MM-DD[*HH[:MM[:SS[.fff[fff]]]][+HH:MM[:SS[.ffffff]]]]`
  (digits strict, calendar/clock ranges validated as the `datetime` and
  `timezone` constructors validate them).
* `datetime.strftime` with format `%Y-%m-%d %H:%M:%S UTC` — modelled by
  `TCFmt.strftimeUTC`; the documented field widths (`%Y` zero-padded to 4,
  the rest to 2) coincide with fixed-width digit extraction because every
  `datetime` field is within those widths (year at most 9999).
* `str.replace('Z', '+00:00')` — modelled by `TCFmt.replaceZ`.
* `sorted(key=..., reverse=True)` — Python's sort is stable; it is modelled
  by the extensionally equal stable insertion sort `TCFmt.pySortDesc`.
* `str.split('\n')` / `str.strip()` truthiness — modelled by `TCFmt.splitNl`
  and "contains a non-whitespace character".
* `pathlib.Path.glob('*.md')` — matches exactly the file names ending in
  `.md` (pathlib's glob, unlike the `glob` module, does not special-case
  names starting with a dot), modelled by `TCFmt.isMdName`.

The script body calls `main()` twice under `if __name__ == '__main__'`;
`TCFmt.run` models a single invocation of `main` (the second invocation
repeats the first with identical file-system results).
-/

set_option maxRecDepth 100000

namespace TCFmt

/-! ## Generic string machinery -/

/-- Python `sep.join(parts)`. -/
def pyJoin (sep : String) : List String → String
  | [] => ""
  | [x] => x
  | x :: y :: rest => x ++ sep ++ pyJoin sep (y :: rest)

/-- Python `'\n'.join(lines)`. -/
def joinNl : List String → String := pyJoin "\n"

/-- Boolean list-prefix test (`as` is a prefix of `bs`). -/
def prefixB : List Char → List Char → Bool
  | [], _ => true
  | _ :: _, [] => false
  | a :: as, b :: bs => (a == b) && prefixB as bs

/-- Boolean contiguous-segment (substring) test: `m` occurs inside `l`. -/
def hasSeg (m : List Char) : List Char → Bool
  | [] => m.isEmpty
  | l@(_ :: t) => prefixB m l || hasSeg m t

/-- Python string `<=`: lexicographic comparison of code points. -/
def lexLe : List Char → List Char → Bool
  | [], _ => true
  | _ :: _, [] => false
  | x :: xs, y :: ys => if x = y then lexLe xs ys else decide (x < y)

/-- Comparison `a <= b` on strings, as Python compares them (by code points). -/
def strLe (a b : String) : Bool := lexLe a.data b.data

/-- Python `s.split('\n')` on the underlying character list. -/
def splitNl : List Char → List (List Char)
  | [] => [[]]
  | c :: rest =>
    match splitNl rest with
    | h :: t => if c = '\n' then [] :: h :: t else (c :: h) :: t
    | [] => if c = '\n' then [[], []] else [[c]]

/-! ## Data model

JSON values reaching the script, as plain structures. Absent dictionary keys
are `none`. The `keys` fields carry the ordered key list of the underlying
JSON object (used only by the no-records diagnostic prints). -/

/-- A `createdBy` / `modifiedBy` object (`name`, `email` optional). -/
structure Person where
  name : Option String
  email : Option String
deriving DecidableEq

/-- One test-case record from `data.content`. -/
structure TestCase where
  uuid : Option String
  description : Option String
  disabled : Option Bool
  createdAt : Option String
  modifiedAt : Option String
  createdBy : Option Person
  modifiedBy : Option Person
  labels : List String
  customSteps : Option String
deriving DecidableEq

/-- The `data` object of the response. -/
structure DataObj where
  keys : List String
  content : Option (List TestCase)
  totalElements : Option Int
deriving DecidableEq

/-- The top-level parsed response. -/
structure Response where
  keys : List String
  status : Option String
  data : Option DataObj
deriving DecidableEq

/-- The outcome of loading `test-cases-response.json`: the file may be
missing, unparseable (with the decoder's error text), or parsed. -/
inductive InputFile where
  | missing : InputFile
  | invalidJson : String → InputFile
  | parsed : Response → InputFile

/-- Python truthiness of an optional string (`None` and `''` are falsy). -/
def pyTruthy : Option String → Bool
  | none => false
  | some s => s != ""

/-- Rendering `f"[x]"` of an optional string (Python renders `None`). -/
def pyShowOpt : Option String → String
  | none => "None"
  | some s => s

/-- A record all of whose optional fields are absent. -/
def emptyTC : TestCase :=
  { uuid := none, description := none, disabled := none, createdAt := none,
    modifiedAt := none, createdBy := none, modifiedBy := none, labels := [],
    customSteps := none }

/-! ## `format_timestamp` -/

/-- Python `timestamp_str.replace('Z', '+00:00')`. -/
def replaceZ (s : String) : String :=
  ⟨s.data.foldr (fun c acc =>
    if c = 'Z' then '+' :: '0' :: '0' :: ':' :: '0' :: '0' :: acc else c :: acc) []⟩

/-- The numeric value of a decimal digit character. -/
def digitVal (c : Char) : Option Nat :=
  if c.isDigit then some (c.toNat - 48) else none

/-- Parse exactly two decimal digits. -/
def parse2 : List Char → Option (Nat × List Char)
  | a :: b :: rest =>
    match digitVal a, digitVal b with
    | some x, some y => some (10 * x + y, rest)
    | _, _ => none
  | _ => none

/-- Parse exactly four decimal digits. -/
def parse4 (cs : List Char) : Option (Nat × List Char) :=
  match parse2 cs with
  | some (hi, rest) =>
    match parse2 rest with
    | some (lo, rest2) => some (100 * hi + lo, rest2)
    | none => none
  | none => none

/-- Gregorian leap-year test, as `datetime` validates days. -/
def isLeapYear (y : Nat) : Bool := y % 4 = 0 && (y % 100 != 0 || y % 400 = 0)

/-- Days in a month, as `datetime` validates days. -/
def daysInMonth (y m : Nat) : Nat :=
  if m = 2 then (if isLeapYear y then 29 else 28)
  else if m = 4 || m = 6 || m = 9 || m = 11 then 30 else 31

/-- The result of `datetime.fromisoformat`, restricted to the fields the
script's `strftime` call renders (tzinfo and microseconds are validated
during parsing but dropped). -/
structure PyDateTime where
  year : Nat
  month : Nat
  day : Nat
  hour : Nat
  minute : Nat
  second : Nat
deriving DecidableEq

/-- Parse the time-of-day part `HH[:MM[:SS[.fff[fff]]]]`, returning the
remaining characters (a possible UTC-offset suffix). -/
def parseTimePart (cs : List Char) : Option (Nat × Nat × Nat × List Char) :=
  match parse2 cs with
  | none => none
  | some (h, r1) =>
    match r1 with
    | ':' :: r2 =>
      match parse2 r2 with
      | none => none
      | some (mi, r3) =>
        match r3 with
        | ':' :: r4 =>
          match parse2 r4 with
          | none => none
          | some (sec, r5) =>
            match r5 with
            | '.' :: r6 =>
              let ds := r6.takeWhile Char.isDigit
              if ds.length = 3 || ds.length = 6 then some (h, mi, sec, r6.drop ds.length)
              else none
            | _ => some (h, mi, sec, r5)
        | _ => some (h, mi, 0, r3)
    | _ => some (h, 0, 0, r1)

/-- Parse a UTC offset `HH:MM[:SS[.ffffff]]` after its sign, returning the
remaining characters. The offset magnitude must be under 24 hours, as the
`timezone` constructor requires. -/
def parseOffsetTail (cs : List Char) : Option (List Char) :=
  match parse2 cs with
  | some (oh, ':' :: r2) =>
    match parse2 r2 with
    | some (om, r3) =>
      match r3 with
      | ':' :: r4 =>
        match parse2 r4 with
        | some (os, r5) =>
          match r5 with
          | '.' :: r6 =>
            if (r6.takeWhile Char.isDigit).length = 6 then
              if oh * 3600 + om * 60 + os < 86400 then some (r6.drop 6) else none
            else none
          | _ => if oh * 3600 + om * 60 + os < 86400 then some r5 else none
        | none => none
      | _ => if oh * 3600 + om * 60 < 86400 then some r3 else none
    | none => none
  | _ => none

/-- Model of `datetime.fromisoformat`: `YYYY-MM-DD`, optionally a single separator
character followed by a time of day and an optional signed UTC offset. -/
def fromisoformat (s : String) : Option PyDateTime :=
  match parse4 s.data with
  | none => none
  | some (y, r1) =>
    match r1 with
    | '-' :: r2 =>
      match parse2 r2 with
      | none => none
      | some (m, r3) =>
        match r3 with
        | '-' :: r4 =>
          match parse2 r4 with
          | none => none
          | some (d, r5) =>
            if 1 ≤ y && 1 ≤ m && m ≤ 12 && 1 ≤ d && d ≤ daysInMonth y m then
              match r5 with
              | [] => some ⟨y, m, d, 0, 0, 0⟩
              | _sep :: r6 =>
                match parseTimePart r6 with
                | none => none
                | some (h, mi, sec, r7) =>
                  if h ≤ 23 && mi ≤ 59 && sec ≤ 59 then
                    match r7 with
                    | [] => some ⟨y, m, d, h, mi, sec⟩
                    | c :: r8 =>
                      if c = '+' || c = '-' then
                        match parseOffsetTail r8 with
                        | some [] => some ⟨y, m, d, h, mi, sec⟩
                        | _ => none
                      else none
                  else none
            else none
        | _ => none
    | _ => none

/-- The character of a single decimal digit. -/
def digitChar (d : Nat) : Char := Char.ofNat (48 + d)

/-- A number rendered in exactly two digits (`%m`/`%d`/`%H`/`%M`/`%S`:
zero-padded; the fields are below 100, so fixed-width extraction is exact). -/
def fmt2 (n : Nat) : String := ⟨[digitChar (n / 10 % 10), digitChar (n % 10)]⟩

/-- A number rendered in exactly four digits (`%Y`: documented as
zero-padded to 4; `datetime` years are at most 9999). -/
def fmt4 (n : Nat) : String :=
  ⟨[digitChar (n / 1000 % 10), digitChar (n / 100 % 10),
    digitChar (n / 10 % 10), digitChar (n % 10)]⟩

/-- Model of `dt.strftime('%Y-%m-%d %H:%M:%S UTC')`. -/
def strftimeUTC (dt : PyDateTime) : String :=
  fmt4 dt.year ++ "-" ++ fmt2 dt.month ++ "-" ++ fmt2 dt.day ++ " " ++
    fmt2 dt.hour ++ ":" ++ fmt2 dt.minute ++ ":" ++ fmt2 dt.second ++ " UTC"

/-- Does a string have the exact shape `YYYY-MM-DD HH:MM:SS UTC`? -/
def matchesPattern (s : String) : Bool :=
  match s.data with
  | [y1, y2, y3, y4, s1, m1, m2, s2, d1, d2, sp1, h1, h2, c1, n1, n2, c2, e1, e2, sp2, u1, u2, u3] =>
    [y1, y2, y3, y4, m1, m2, d1, d2, h1, h2, n1, n2, e1, e2].all Char.isDigit &&
      s1 = '-' && s2 = '-' && sp1 = ' ' && c1 = ':' && c2 = ':' && sp2 = ' ' &&
      u1 = 'U' && u2 = 'T' && u3 = 'C'
  | _ => false

/-- The function `format_timestamp(timestamp_str)` (lines 12–20 of the script). -/
def format_timestamp (ts : Option String) : String :=
  match ts with
  | none => "N/A"
  | some s =>
    if s = "" then "N/A"
    else
      match fromisoformat (replaceZ s) with
      | some dt => strftimeUTC dt
      | none => s

/-! ## `format_test_case` (lines 23–65 of the script) -/

/-- The `Created By` line. Absent `createdBy` defaults to `{}`, which is
falsy, so the line is omitted; a (non-empty) object yields one line with
`N/A` placeholders for missing `name`/`email`. -/
def createdByBlock (tc : TestCase) : List String :=
  match tc.createdBy with
  | none => []
  | some p => ["- **Created By**: " ++ p.name.getD "N/A" ++ " (" ++ p.email.getD "N/A" ++ ")"]

/-- The `Modified By` line (same shape as `createdByBlock`). -/
def modifiedByBlock (tc : TestCase) : List String :=
  match tc.modifiedBy with
  | none => []
  | some p => ["- **Modified By**: " ++ p.name.getD "N/A" ++ " (" ++ p.email.getD "N/A" ++ ")"]

/-- The `Modified`/`Modified By` lines, emitted only when `modifiedAt` is
truthy (present and non-empty). -/
def modifiedBlock (tc : TestCase) : List String :=
  if pyTruthy tc.modifiedAt then
    ("- **Modified**: " ++ format_timestamp tc.modifiedAt) :: modifiedByBlock tc
  else []

/-- The `Labels` line, emitted only when the list is non-empty. -/
def labelsBlock (tc : TestCase) : List String :=
  if tc.labels.isEmpty then [] else ["- **Labels**: " ++ pyJoin ", " tc.labels]

/-- The `Test Steps` body: the raw `customSteps` text in a literal block,
or a placeholder when the text is absent or empty. -/
def stepsBlock (tc : TestCase) : List String :=
  let steps := tc.customSteps.getD ""
  if steps = "" then ["*No steps defined*"] else ["```", steps, "```"]

/-- The list that `format_test_case` accumulates in `content` before the
final `'\n'.join(content)`. -/
def formatLines (tc : TestCase) : List String :=
  ["# " ++ tc.description.getD "Untitled Test Case" ++ "\n",
   "## Metadata\n",
   "- **UUID**: `" ++ tc.uuid.getD "N/A" ++ "`",
   "- **Status**: " ++ (if tc.disabled.getD false then "🚫 Disabled" else "✅ Enabled"),
   "- **Created**: " ++ format_timestamp tc.createdAt]
  ++ createdByBlock tc ++ modifiedBlock tc ++ labelsBlock tc
  ++ ["", "## Test Steps\n"] ++ stepsBlock tc ++ [""]

/-- The function `format_test_case(test_case)`. -/
def format_test_case (tc : TestCase) : String := joinNl (formatLines tc)

/-! ## `create_index` (lines 68–102 of the script) -/

/-- Does a line survive `if s.strip()` — i.e. hold a non-whitespace char? -/
def hasNonWs (l : List Char) : Bool := l.any (fun c => !c.isWhitespace)

/-- Modelled from the spec sentence for C6: "the number of non-blank lines
in `customSteps`" — split on newline, count the lines containing a
non-whitespace character. -/
def specStepCount (s : String) : Nat := ((splitNl s.data).filter hasNonWs).length

/-- The step count of the index (lines 96–97):
`len([s for s in steps.split('\n') if s.strip()]) if steps else 0`. -/
def stepCount (tc : TestCase) : Nat :=
  let steps := tc.customSteps.getD ""
  if steps = "" then 0 else ((splitNl steps.data).filter hasNonWs).length

/-- The sort key: `x.get('createdAt', '')`. -/
def indexKey (tc : TestCase) : String := tc.createdAt.getD ""

/-- Stable descending insertion: a record moves past exactly the records
with a strictly smaller key, so equal keys keep their input order —
extensionally, Python's `sorted(..., key=..., reverse=True)`. -/
def insertDesc (tc : TestCase) : List TestCase → List TestCase
  | [] => [tc]
  | b :: rest =>
    if strLe (indexKey tc) (indexKey b) then b :: insertDesc tc rest
    else tc :: b :: rest

/-- Python `sorted(test_cases, key=lambda x: x.get('createdAt', ''), reverse=True)`. -/
def pySortDesc (tcs : List TestCase) : List TestCase :=
  tcs.foldl (fun acc tc => insertDesc tc acc) []

/-- The relative link `./<uuid>.md` of an index entry. -/
def relLink (u : String) : String := "./" ++ u ++ ".md"

/-- The lines of one index entry (the body of the `for i, tc in
enumerate(sorted_cases, 1)` loop; the `File` f-string is split so that the
relative link is the named piece `relLink`). -/
def entryLines (i : Nat) (tc : TestCase) : List String :=
  ["## " ++ toString i ++ ". " ++ (if tc.disabled.getD false then "🚫" else "✅") ++ " " ++
     tc.description.getD "Untitled" ++ "\n",
   "- **UUID**: `" ++ tc.uuid.getD "N/A" ++ "`",
   "- **File**: [`" ++ tc.uuid.getD "N/A" ++ ".md`](" ++ relLink (tc.uuid.getD "N/A") ++ ")",
   "- **Created**: " ++ format_timestamp tc.createdAt,
   "- **Steps**: " ++ toString (stepCount tc),
   ""]

/-- All entry lines, ranked from `i` upward. -/
def entriesLines : Nat → List TestCase → List String
  | _, [] => []
  | i, tc :: rest => entryLines i tc ++ entriesLines (i + 1) rest

/-- The index header lines; `now` is the rendered
`datetime.utcnow().strftime('%Y-%m-%d %H:%M:%S UTC')` of the run. -/
def indexHeader (tcs : List TestCase) (md : Option DataObj) (now : String) : List String :=
  ["# Test Cases Index\n",
   "**Last Updated**: " ++ now ++ "\n",
   "**Total Test Cases**: " ++
     toString (match md with
               | some d => d.totalElements.getD (tcs.length : Int)
               | none => (tcs.length : Int)) ++ "\n",
   "---\n"]

/-- The function `create_index(test_cases, metadata)`. -/
def create_index (tcs : List TestCase) (md : Option DataObj) (now : String) : String :=
  joinNl (indexHeader tcs md now ++ entriesLines 1 (pySortDesc tcs))

/-! ## File-system model and `main` (lines 105–168 of the script)

The `test-cases/` directory is a flat association list from file names to
contents; a fresh write shadows (and drops) any previous entry with the
same name. `output_dir.mkdir(exist_ok=True)` has no observable effect in
this model. -/

/-- The contents of the output directory. -/
abbrev Dir := List (String × String)

/-- The content of file `n`, when present. -/
def getFile : Dir → String → Option String
  | [], _ => none
  | (k, v) :: rest, n => if k = n then some v else getFile rest n

/-- Does file `n` exist? -/
def fileExists (d : Dir) (n : String) : Bool := (getFile d n).isSome

/-- Write (create or overwrite) file `n`. -/
def setFile (d : Dir) (n content : String) : Dir :=
  (n, content) :: d.filter (fun p => p.1 != n)

/-- Does `Path.glob('*.md')` match the name — does it end in `.md`? -/
def isMdName (s : String) : Bool := s.data.reverse.take 3 == ['d', 'm', '.']

/-- The loop `for old_file in output_dir.glob('*.md'): old_file.unlink()`. -/
def clearMd (d : Dir) : Dir := d.filter (fun p => !isMdName p.1)

/-- The warning printed for a record whose `uuid` is absent or empty. -/
def skipWarning : String := "⚠️  Skipping test case without UUID"

/-- The per-record loop (lines 144–157): write `<uuid>.md` for each record
with a truthy `uuid`, print a warning and continue otherwise. -/
def processRecords : List TestCase → Dir → List String → Dir × List String
  | [], d, log => (d, log)
  | tc :: rest, d, log =>
    if pyTruthy tc.uuid then
      processRecords rest (setFile d (tc.uuid.getD "" ++ ".md") (format_test_case tc))
        (log ++ ["   📝 " ++ tc.description.getD "Untitled"])
    else
      processRecords rest d (log ++ [skipWarning])

/-- The last record of the list that writes file `n` in the loop above. -/
def lastWrite : List TestCase → String → Option TestCase
  | [], _ => none
  | tc :: rest, n =>
    match lastWrite rest n with
    | some tc2 => some tc2
    | none =>
      if pyTruthy tc.uuid && (tc.uuid.getD "" ++ ".md" == n) then some tc else none

/-- The lookup `response.get('data', ...).get('content', [])` with object and list defaults. -/
def contentOf (r : Response) : List TestCase :=
  match r.data with
  | none => []
  | some d => d.content.getD []

/-- An ASCII apostrophe (the quote of Python's `repr` for these keys). -/
def quoteC : Char := Char.ofNat 39

/-- Python `repr` of a plain identifier-like string. -/
def pyStrRepr (s : String) : String := ⟨quoteC :: (s.data ++ [quoteC])⟩

/-- Rendering of `list(obj.keys())` inside an f-string. -/
def pyKeyList (ks : List String) : String :=
  "[" ++ pyJoin ", " (ks.map pyStrRepr) ++ "]"

/-- The observable outcome of one `main()` invocation: the process exit
status, the final contents of `test-cases/`, and the printed lines. -/
structure RunOut where
  exitCode : Nat
  dir : Dir
  log : List String
deriving DecidableEq

/-- One invocation of `main()` against a loaded input, a fixed rendered
current time `now`, and the prior contents of `test-cases/`. -/
def run (inp : InputFile) (now : String) (dir : Dir) : RunOut :=
  match inp with
  | .missing => ⟨1, dir, ["❌ Error: test-cases-response.json not found!"]⟩
  | .invalidJson e => ⟨1, dir, ["❌ Error: Invalid JSON - " ++ e]⟩
  | .parsed r =>
    let headerLog := ["📥 API Response received", "   Status: " ++ pyShowOpt r.status]
    let tcs := contentOf r
    if tcs.isEmpty then
      ⟨0, dir,
        headerLog ++
          ["⚠️  No test cases found in response",
           "   Response keys: " ++ pyKeyList r.keys] ++
          (match r.data with
           | some d => ["   Data keys: " ++ pyKeyList d.keys]
           | none => [])⟩
    else
      let res := processRecords tcs (clearMd dir) []
      ⟨0, setFile res.1 "INDEX.md" (create_index tcs r.data now),
        headerLog ++ ["✅ Found " ++ toString tcs.length ++ " test case(s)"] ++ res.2 ++
          ["📋 Created index file",
           "\n🎉 Successfully processed " ++ toString tcs.length ++ " test cases!"]⟩

/-! ## Helper lemmas: segments of strings -/

theorem prefixB_self_append (m t : List Char) : prefixB m (m ++ t) = true := by
  induction m with
  | nil => rfl
  | cons a as ih => simp [prefixB, ih]

theorem hasSeg_append (s m t : List Char) : hasSeg m (s ++ m ++ t) = true := by
  induction s with
  | nil =>
    cases m with
    | nil =>
      cases t with
      | nil => rfl
      | cons c t' => simp [hasSeg, prefixB]
    | cons a as =>
      have h := prefixB_self_append (a :: as) t
      simp only [List.cons_append] at h
      simp [hasSeg, h]
  | cons c s' ih =>
    simp only [List.append_assoc] at ih
    simp [hasSeg, ih]

theorem prefixB_iff (m l : List Char) : prefixB m l = true ↔ ∃ t, l = m ++ t := by
  induction m generalizing l with
  | nil => simp [prefixB]
  | cons a as ih =>
    cases l with
    | nil => simp [prefixB]
    | cons b bs =>
      simp only [prefixB, Bool.and_eq_true, beq_iff_eq, ih, List.cons_append,
        List.cons.injEq]
      constructor
      · rintro ⟨rfl, t, rfl⟩; exact ⟨t, rfl, rfl⟩
      · rintro ⟨t, rfl, rfl⟩; exact ⟨rfl, t, rfl⟩

theorem hasSeg_iff (m l : List Char) : hasSeg m l = true ↔ ∃ s t, l = s ++ m ++ t := by
  induction l with
  | nil =>
    constructor
    · intro h
      have : m = [] := by
        cases m with
        | nil => rfl
        | cons a as => simp [hasSeg, List.isEmpty] at h
      exact ⟨[], [], by simp [this]⟩
    · rintro ⟨s, t, h⟩
      have hs : s = [] := by cases s <;> simp_all
      have hm : m = [] := by subst hs; cases m <;> simp_all
      simp [hasSeg, hm, List.isEmpty]
  | cons c l' ih =>
    simp only [hasSeg, Bool.or_eq_true, prefixB_iff, ih]
    constructor
    · rintro (⟨t, h⟩ | ⟨s, t, h⟩)
      · exact ⟨[], t, by simp [h]⟩
      · exact ⟨c :: s, t, by simp [h]⟩
    · rintro ⟨s, t, h⟩
      cases s with
      | nil => exact Or.inl ⟨t, by simpa using h⟩
      | cons c' s' =>
        simp only [List.cons_append, List.cons.injEq] at h
        exact Or.inr ⟨s', t, h.2⟩

theorem seg_trans {a b c : List Char} (h1 : hasSeg a b = true) (h2 : hasSeg b c = true) :
    hasSeg a c = true := by
  rw [hasSeg_iff] at h1 h2 ⊢
  obtain ⟨s1, t1, rfl⟩ := h1
  obtain ⟨s2, t2, rfl⟩ := h2
  exact ⟨s2 ++ s1, t1 ++ t2, by simp [List.append_assoc]⟩

theorem mem_joinNl_seg {x : String} : ∀ {ls : List String}, x ∈ ls →
    hasSeg x.data (joinNl ls).data = true := by
  intro ls
  induction ls with
  | nil => intro h; cases h
  | cons y ys ih =>
    intro h
    cases ys with
    | nil =>
      have hx : x = y := by simpa using h
      subst hx
      simpa using hasSeg_append [] x.data []
    | cons z rest =>
      rcases List.mem_cons.mp h with rfl | hmem
      · show hasSeg x.data (x ++ "\n" ++ joinNl (z :: rest)).data = true
        have := hasSeg_append [] x.data ("\n" ++ joinNl (z :: rest)).data
        simpa using this
      · have hrec := ih hmem
        refine seg_trans hrec ?_
        show hasSeg (joinNl (z :: rest)).data (y ++ "\n" ++ joinNl (z :: rest)).data = true
        have := hasSeg_append (y ++ "\n").data (joinNl (z :: rest)).data []
        simpa using this

/-! ## Helper lemmas: the lexicographic order of Python strings -/

theorem lexLe_refl (l : List Char) : lexLe l l = true := by
  induction l with
  | nil => rfl
  | cons a as ih => simp [lexLe, ih]

theorem lexLe_total (a b : List Char) : lexLe a b = true ∨ lexLe b a = true := by
  induction a generalizing b with
  | nil => exact Or.inl rfl
  | cons x xs ih =>
    cases b with
    | nil => exact Or.inr rfl
    | cons y ys =>
      by_cases hxy : x = y
      · subst hxy
        rcases ih ys with h | h
        · exact Or.inl (by simp [lexLe, h])
        · exact Or.inr (by simp [lexLe, h])
      · rcases lt_or_gt_of_ne hxy with h | h
        · exact Or.inl (by simp [lexLe, hxy, h])
        · exact Or.inr (by simp [lexLe, Ne.symm hxy, h])

theorem lexLe_trans {a b c : List Char} (h1 : lexLe a b = true) (h2 : lexLe b c = true) :
    lexLe a c = true := by
  induction a generalizing b c with
  | nil => rfl
  | cons x xs ih =>
    cases b with
    | nil => simp [lexLe] at h1
    | cons y ys =>
      cases c with
      | nil => simp [lexLe] at h2
      | cons z zs =>
        simp only [lexLe] at h1 h2 ⊢
        by_cases hxy : x = y
        · subst hxy
          by_cases hyz : x = z
          · subst hyz
            simp only [if_pos rfl] at h1 h2 ⊢
            exact ih h1 h2
          · simp only [if_pos rfl] at h1
            simpa [hyz] using h2
        · by_cases hyz : y = z
          · subst hyz
            simpa [hxy] using h1
          · simp only [if_neg hxy, if_neg hyz, decide_eq_true_eq] at h1 h2
            have hxz : x < z := lt_trans h1 h2
            simp [ne_of_lt hxz, hxz]

theorem lexLe_nil_right {l : List Char} (h : lexLe l [] = true) : l = [] := by
  cases l with
  | nil => rfl
  | cons a as => simp [lexLe] at h

/-! ## Helper lemmas: the directory model -/

theorem getFile_filter_ne (d : Dir) (k n : String) (h : k ≠ n) :
    getFile (d.filter (fun p => p.1 != k)) n = getFile d n := by
  induction d with
  | nil => rfl
  | cons a rest ih =>
    by_cases hak : a.1 = k
    · have : (a.1 != k) = false := by simp [hak]
      simp only [List.filter_cons, this]
      have han : a.1 ≠ n := by rw [hak]; exact h
      cases a
      simp_all [getFile]
    · have : (a.1 != k) = true := by simp [hak]
      simp only [List.filter_cons, this]
      cases a
      simp [getFile, ih]

theorem getFile_setFile (d : Dir) (k v n : String) :
    getFile (setFile d k v) n = if k = n then some v else getFile d n := by
  simp only [setFile, getFile]
  by_cases h : k = n
  · simp [h]
  · simp [h, getFile_filter_ne d k n h]

theorem getFile_clearMd (d : Dir) (n : String) :
    getFile (clearMd d) n = if isMdName n then none else getFile d n := by
  induction d with
  | nil => simp [clearMd, getFile]
  | cons a rest ih =>
    by_cases hmd : isMdName a.1
    · have : (!isMdName a.1) = false := by simp [hmd]
      simp only [clearMd, List.filter_cons, this] at ih ⊢
      by_cases han : a.1 = n
      · subst han; simp [hmd, ih]
      · cases a; simp_all [getFile]
    · have : (!isMdName a.1) = true := by simp [hmd]
      simp only [clearMd, List.filter_cons, this] at ih ⊢
      by_cases han : a.1 = n
      · subst han; cases a; simp [getFile, hmd]
      · cases a; simp_all [getFile]

theorem isMdName_append_md (u : String) : isMdName (u ++ ".md") = true := by
  have : (u ++ ".md").data = u.data ++ ['.', 'm', 'd'] := by simp
  simp only [isMdName, this, List.reverse_append]
  rw [show (['.', 'm', 'd'].reverse : List Char) = ['d', 'm', '.'] from rfl]
  rw [List.take_left' (by rfl)]
  rfl

/-! ## Helper lemmas: the per-record loop -/

theorem getFile_processRecords : ∀ (tcs : List TestCase) (d : Dir) (log : List String)
    (n : String), getFile (processRecords tcs d log).1 n =
      match lastWrite tcs n with
      | some tc => some (format_test_case tc)
      | none => getFile d n := by
  intro tcs
  induction tcs with
  | nil => intro d log n; rfl
  | cons tc rest ih =>
    intro d log n
    by_cases ht : pyTruthy tc.uuid = true
    · simp only [processRecords, lastWrite, ht, if_pos, Bool.true_and]
      rw [ih]
      cases hlw : lastWrite rest n with
      | some tc2 => rfl
      | none =>
        simp only [getFile_setFile]
        by_cases he : tc.uuid.getD "" ++ ".md" = n
        · simp [he]
        · simp [he]
    · have ht' : pyTruthy tc.uuid = false := by simpa using ht
      simp only [processRecords, lastWrite, ht', Bool.false_eq_true, if_false,
        Bool.false_and]
      rw [ih]
      cases hlw : lastWrite rest n with
      | some tc2 => rfl
      | none => simp

theorem processRecords_log : ∀ (tcs : List TestCase) (d : Dir) (log : List String),
    (processRecords tcs d log).2 = log ++ tcs.map (fun tc =>
      if pyTruthy tc.uuid then "   📝 " ++ tc.description.getD "Untitled"
      else skipWarning) := by
  intro tcs
  induction tcs with
  | nil => intro d log; simp [processRecords]
  | cons tc rest ih =>
    intro d log
    by_cases ht : pyTruthy tc.uuid = true
    · simp [processRecords, ht, ih, List.append_assoc]
    · have ht' : pyTruthy tc.uuid = false := by simpa using ht
      simp [processRecords, ht', ih, List.append_assoc]

theorem lastWrite_mem {tcs : List TestCase} {n : String} {tc : TestCase}
    (h : lastWrite tcs n = some tc) :
    tc ∈ tcs ∧ pyTruthy tc.uuid = true ∧ tc.uuid.getD "" ++ ".md" = n := by
  induction tcs with
  | nil => simp [lastWrite] at h
  | cons a rest ih =>
    rw [lastWrite] at h
    cases hlw : lastWrite rest n with
    | some tc2 =>
      rw [hlw] at h
      have h2 : tc2 = tc := by simpa using h
      subst h2
      obtain ⟨hm, h1, h2⟩ := ih hlw
      exact ⟨List.mem_cons_of_mem a hm, h1, h2⟩
    | none =>
      rw [hlw] at h
      by_cases hc : (pyTruthy a.uuid && (a.uuid.getD "" ++ ".md" == n)) = true
      · have h2 : a = tc := by simpa [hc] using h
        subst h2
        simp only [Bool.and_eq_true, beq_iff_eq] at hc
        exact ⟨List.mem_cons_self a rest, hc.1, hc.2⟩
      · have : (if (pyTruthy a.uuid && (a.uuid.getD "" ++ ".md" == n)) = true
            then some a else none) = some tc := by simpa using h
        rw [if_neg hc] at this
        cases this

theorem lastWrite_exists {tcs : List TestCase} {tc : TestCase}
    (h : tc ∈ tcs) (ht : pyTruthy tc.uuid = true) :
    ∃ tc2, lastWrite tcs (tc.uuid.getD "" ++ ".md") = some tc2 := by
  induction tcs with
  | nil => cases h
  | cons a rest ih =>
    simp only [lastWrite]
    cases hlw : lastWrite rest (tc.uuid.getD "" ++ ".md") with
    | some tc2 => exact ⟨tc2, rfl⟩
    | none =>
      rcases List.mem_cons.mp h with rfl | hmem
      · refine ⟨tc, ?_⟩
        rw [if_pos (by simp [ht])]
      · obtain ⟨tc2, h2⟩ := ih hmem
        rw [h2] at hlw
        cases hlw

/-! ## Helper lemmas: the index sort -/

/-- The descending-key relation the index is sorted by. -/
def keyGe (a b : TestCase) : Prop := strLe (indexKey b) (indexKey a) = true

theorem mem_insertDesc {x tc : TestCase} : ∀ {l : List TestCase},
    x ∈ insertDesc tc l ↔ x = tc ∨ x ∈ l := by
  intro l
  induction l with
  | nil => simp [insertDesc]
  | cons b rest ih =>
    simp only [insertDesc]
    by_cases hc : strLe (indexKey tc) (indexKey b) = true
    · rw [if_pos hc]
      simp only [List.mem_cons, ih]
      tauto
    · rw [if_neg hc]
      simp only [List.mem_cons]

theorem pairwise_insertDesc {tc : TestCase} : ∀ {l : List TestCase},
    l.Pairwise keyGe → (insertDesc tc l).Pairwise keyGe := by
  intro l
  induction l with
  | nil => intro _; simp [insertDesc, keyGe]
  | cons b rest ih =>
    intro h
    obtain ⟨hb, hrest⟩ := List.pairwise_cons.mp h
    simp only [insertDesc]
    by_cases hc : strLe (indexKey tc) (indexKey b) = true
    · rw [if_pos hc]
      refine List.pairwise_cons.mpr ⟨?_, ih hrest⟩
      intro x hx
      rcases mem_insertDesc.mp hx with rfl | hx'
      · exact hc
      · exact hb x hx'
    · rw [if_neg hc]
      have htb : strLe (indexKey b) (indexKey tc) = true := by
        rcases lexLe_total (indexKey tc).data (indexKey b).data with h1 | h1
        · exact absurd h1 hc
        · exact h1
      refine List.pairwise_cons.mpr ⟨?_, h⟩
      intro x hx
      rcases List.mem_cons.mp hx with rfl | hx'
      · exact htb
      · exact lexLe_trans (hb x hx') htb

theorem pairwise_pySortDesc (tcs : List TestCase) : (pySortDesc tcs).Pairwise keyGe := by
  suffices h : ∀ (l : List TestCase) (acc : List TestCase), acc.Pairwise keyGe →
      (l.foldl (fun acc tc => insertDesc tc acc) acc).Pairwise keyGe by
    exact h tcs [] List.Pairwise.nil
  intro l
  induction l with
  | nil => intro acc h; exact h
  | cons tc rest ih => intro acc h; exact ih _ (pairwise_insertDesc h)

theorem mem_pySortDesc {x : TestCase} {tcs : List TestCase} :
    x ∈ pySortDesc tcs ↔ x ∈ tcs := by
  suffices h : ∀ (l : List TestCase) (acc : List TestCase),
      x ∈ l.foldl (fun acc tc => insertDesc tc acc) acc ↔ x ∈ acc ∨ x ∈ l by
    have := h tcs []
    simpa [pySortDesc] using this
  intro l
  induction l with
  | nil => intro acc; simp
  | cons tc rest ih =>
    intro acc
    simp only [List.foldl_cons, ih, mem_insertDesc, List.mem_cons]
    tauto

/-! ## Helper lemmas: index entries -/

theorem fileLine_mem_entriesLines {tc : TestCase} : ∀ {l : List TestCase} (i : Nat),
    tc ∈ l → ("- **File**: [`" ++ tc.uuid.getD "N/A" ++ ".md`](" ++
      relLink (tc.uuid.getD "N/A") ++ ")") ∈ entriesLines i l := by
  intro l
  induction l with
  | nil => intro i h; cases h
  | cons a rest ih =>
    intro i h
    rcases List.mem_cons.mp h with rfl | hmem
    · exact List.mem_append_left _ (by simp [entryLines])
    · exact List.mem_append_right _ (ih (i + 1) hmem)

/-! ## Sample inputs used by witnesses and counterexamples -/

/-- A record with uuid `a` and a well-formed creation timestamp. -/
def tcA : TestCase :=
  { emptyTC with
    uuid := some "a"
    description := some "Alpha"
    createdAt := some "2024-05-01T10:00:00Z" }

/-- A second record with uuid `a`, later in input order. -/
def tcA2 : TestCase :=
  { emptyTC with uuid := some "a", description := some "Alpha v2" }

/-- A record with uuid `b` and an older creation timestamp. -/
def tcB : TestCase :=
  { emptyTC with uuid := some "b", createdAt := some "2023-01-01T00:00:00Z" }

/-- A record with no uuid at all. -/
def tcNoId : TestCase := { emptyTC with description := some "ghost" }

/-- A record with a uuid but no creation timestamp. -/
def tcNoDate : TestCase := { emptyTC with uuid := some "c" }

/-- Records whose uuid collides with the index file name. -/
def tcI1 : TestCase := { emptyTC with uuid := some "INDEX", description := some "first" }

/-- Second record with uuid `INDEX`. -/
def tcI2 : TestCase := { emptyTC with uuid := some "INDEX", description := some "second" }

/-- A well-formed response holding the given records. -/
def respOf (tcs : List TestCase) : Response :=
  ⟨["status", "data"], some "SUCCESS",
   some ⟨["content", "totalElements"], some tcs, none⟩⟩

/-! ## The strftime output always has the fixed shape -/

theorem digitChar_isDigit {m : Nat} (h : m < 10) : (digitChar m).isDigit = true := by
  interval_cases m <;> decide

theorem matchesPattern_strftime (dt : PyDateTime) :
    matchesPattern (strftimeUTC dt) = true := by
  have hd : ∀ x : Nat, (digitChar (x % 10)).isDigit = true := fun x =>
    digitChar_isDigit (Nat.mod_lt x (by norm_num))
  have hdata : (strftimeUTC dt).data =
      [digitChar (dt.year / 1000 % 10), digitChar (dt.year / 100 % 10),
       digitChar (dt.year / 10 % 10), digitChar (dt.year % 10), '-',
       digitChar (dt.month / 10 % 10), digitChar (dt.month % 10), '-',
       digitChar (dt.day / 10 % 10), digitChar (dt.day % 10), ' ',
       digitChar (dt.hour / 10 % 10), digitChar (dt.hour % 10), ':',
       digitChar (dt.minute / 10 % 10), digitChar (dt.minute % 10), ':',
       digitChar (dt.second / 10 % 10), digitChar (dt.second % 10), ' ', 'U', 'T', 'C'] := rfl
  simp only [matchesPattern]
  rw [hdata]
  simp [hd]

/-! ## Claim theorems -/

/-- C5: `format_timestamp` renders an absent or empty timestamp as `N/A`;
a string accepted by `fromisoformat` (after the `Z` replacement) is rendered
by `strftime('%Y-%m-%d %H:%M:%S UTC')` and the result always has the exact
shape `YYYY-MM-DD HH:MM:SS UTC`; an unparseable non-empty string is
returned unchanged. -/
theorem c5_format_timestamp :
    format_timestamp none = "N/A" ∧
    format_timestamp (some "") = "N/A" ∧
    (∀ (s : String) (dt : PyDateTime), fromisoformat (replaceZ s) = some dt →
      format_timestamp (some s) = strftimeUTC dt ∧
      matchesPattern (format_timestamp (some s)) = true) ∧
    (∀ s : String, s ≠ "" → fromisoformat (replaceZ s) = none →
      format_timestamp (some s) = s) := by
  refine ⟨rfl, rfl, ?_, ?_⟩
  · intro s dt h
    by_cases hempty : s = ""
    · subst hempty
      rw [show fromisoformat (replaceZ "") = none from rfl] at h
      cases h
    · constructor
      · simp [format_timestamp, hempty, h]
      · simp [format_timestamp, hempty, h, matchesPattern_strftime]
  · intro s hne hnone
    simp [format_timestamp, hne, hnone]

/-- Witness for C5: a concrete parseable timestamp and a concrete
unparseable one. -/
theorem c5_witness :
    format_timestamp (some "2024-03-05T12:34:56Z") = strftimeUTC ⟨2024, 3, 5, 12, 34, 56⟩ ∧
    format_timestamp (some "not a timestamp") = "not a timestamp" :=
  ⟨(c5_format_timestamp.2.2.1 "2024-03-05T12:34:56Z" ⟨2024, 3, 5, 12, 34, 56⟩ (by decide)).1,
   c5_format_timestamp.2.2.2 "not a timestamp" (by decide) (by decide)⟩

/-- C6: the step count of an index entry is the number of non-blank lines
of `customSteps` split on newline (`specStepCount` is that count spelled
out as the claim words it); it is `0` when `customSteps` is absent, the
worked example `"step1\nstep2\n\nstep3"` yields `3`, and the entry line
rendered into the index is `- **Steps**: <count>`. -/
theorem c6_step_count :
    (∀ tc : TestCase, stepCount tc = specStepCount (tc.customSteps.getD "")) ∧
    (∀ tc : TestCase, tc.customSteps = none → stepCount tc = 0) ∧
    stepCount { emptyTC with customSteps := some "step1\nstep2\n\nstep3" } = 3 ∧
    (∀ (tc : TestCase) (i : Nat),
      ("- **Steps**: " ++ toString (stepCount tc)) ∈ entryLines i tc) := by
  refine ⟨?_, ?_, by decide, ?_⟩
  · intro tc
    by_cases h : tc.customSteps.getD "" = ""
    · simp only [stepCount, specStepCount]
      rw [h]
      decide
    · simp [stepCount, specStepCount, h]
  · intro tc h
    simp [stepCount, h]
  · intro tc i
    simp [entryLines]

/-- Witness for C6: concrete records with present and absent steps. -/
theorem c6_witness :
    stepCount { emptyTC with customSteps := some "a\n \nb" } =
      specStepCount "a\n \nb" ∧
    stepCount emptyTC = 0 :=
  ⟨c6_step_count.1 _, c6_step_count.2.1 emptyTC rfl⟩

/-- C7: a missing input file, and an input file with invalid JSON, each
print one diagnostic line and exit with status 1 while leaving the output
directory untouched. -/
theorem c7_invalid_input :
    (∀ (now : String) (dir : Dir),
      run .missing now dir =
        ⟨1, dir, ["❌ Error: test-cases-response.json not found!"]⟩) ∧
    (∀ (now : String) (dir : Dir) (e : String),
      run (.invalidJson e) now dir =
        ⟨1, dir, ["❌ Error: Invalid JSON - " ++ e]⟩) :=
  ⟨fun _ _ => rfl, fun _ _ _ => rfl⟩

/-- C8: when the parsed response has no test cases, the run exits with
status 0, writes nothing (the directory is unchanged), and prints the
no-records warning together with the key names present (the nested key
names too when `data` exists). -/
theorem c8_no_records (r : Response) (now : String) (dir : Dir)
    (h : contentOf r = []) :
    (run (.parsed r) now dir).exitCode = 0 ∧
    (run (.parsed r) now dir).dir = dir ∧
    "⚠️  No test cases found in response" ∈ (run (.parsed r) now dir).log ∧
    ("   Response keys: " ++ pyKeyList r.keys) ∈ (run (.parsed r) now dir).log ∧
    (∀ d, r.data = some d →
      ("   Data keys: " ++ pyKeyList d.keys) ∈ (run (.parsed r) now dir).log) := by
  have hie : (contentOf r).isEmpty = true := by simp [h]
  refine ⟨by simp [run, hie], by simp [run, hie], by simp [run, hie], by simp [run, hie], ?_⟩
  intro d hd
  simp [run, hie, hd]

/-- Witness for C8: a concrete response whose `data` object has no
`content` list. -/
theorem c8_no_records_witness :
    (run (.parsed ⟨["data"], none, some ⟨["totalElements"], none, some 0⟩⟩) "T" []).exitCode = 0 ∧
    (run (.parsed ⟨["data"], none, some ⟨["totalElements"], none, some 0⟩⟩) "T" []).dir = [] ∧
    "⚠️  No test cases found in response" ∈
      (run (.parsed ⟨["data"], none, some ⟨["totalElements"], none, some 0⟩⟩) "T" []).log ∧
    ("   Response keys: " ++ pyKeyList ["data"]) ∈
      (run (.parsed ⟨["data"], none, some ⟨["totalElements"], none, some 0⟩⟩) "T" []).log ∧
    ("   Data keys: " ++ pyKeyList ["totalElements"]) ∈
      (run (.parsed ⟨["data"], none, some ⟨["totalElements"], none, some 0⟩⟩) "T" []).log := by
  have h := c8_no_records ⟨["data"], none, some ⟨["totalElements"], none, some 0⟩⟩ "T" [] rfl
  exact ⟨h.1, h.2.1, h.2.2.1, h.2.2.2.1, h.2.2.2.2 _ rfl⟩

/-- Any record of the input leaves its `File` relative link inside the
rendered index document. -/
theorem relLink_in_index {tc : TestCase} {tcs : List TestCase} (hmem : tc ∈ tcs)
    (md : Option DataObj) (now : String) :
    hasSeg (relLink (tc.uuid.getD "N/A")).data (create_index tcs md now).data = true := by
  have hline := fileLine_mem_entriesLines 1 (mem_pySortDesc.mpr hmem)
  have hmem2 := List.mem_append_right (indexHeader tcs md now) hline
  have hseg2 := mem_joinNl_seg hmem2
  refine seg_trans ?_ hseg2
  have h3 := hasSeg_append ("- **File**: [`" ++ tc.uuid.getD "N/A" ++ ".md`](").data
    (relLink (tc.uuid.getD "N/A")).data (")").data
  simpa [List.append_assoc] using h3

/-- C1: for every record of the input with a truthy (present, non-empty)
`uuid`, the run leaves a file `<uuid>.md` in the output directory, and the
generated `INDEX.md` contains the relative link `./<uuid>.md`. -/
theorem c1_uuid_file_and_index_link (r : Response) (now : String) (dir : Dir)
    (tc : TestCase) (hmem : tc ∈ contentOf r) (ht : pyTruthy tc.uuid = true) :
    fileExists (run (.parsed r) now dir).dir (tc.uuid.getD "" ++ ".md") = true ∧
    ∃ idx, getFile (run (.parsed r) now dir).dir "INDEX.md" = some idx ∧
      hasSeg (relLink (tc.uuid.getD "")).data idx.data = true := by
  obtain ⟨u, hu⟩ : ∃ u, tc.uuid = some u := by
    cases h : tc.uuid with
    | none => rw [h] at ht; cases ht
    | some u => exact ⟨u, rfl⟩
  have hne : contentOf r ≠ [] := by
    intro hh; rw [hh] at hmem; cases hmem
  have hie : (contentOf r).isEmpty = false := by
    cases h : contentOf r with
    | nil => exact absurd h hne
    | cons a l => simp [List.isEmpty]
  have hrun : (run (.parsed r) now dir).dir =
      setFile (processRecords (contentOf r) (clearMd dir) []).1 "INDEX.md"
        (create_index (contentOf r) r.data now) := by
    simp [run, hie]
  constructor
  · rw [hrun]
    by_cases hidx : ("INDEX.md" : String) = tc.uuid.getD "" ++ ".md"
    · simp [fileExists, getFile_setFile, hidx]
    · obtain ⟨tc2, h2⟩ := lastWrite_exists hmem ht
      simp [fileExists, getFile_setFile, hidx, getFile_processRecords, h2]
  · refine ⟨create_index (contentOf r) r.data now, ?_, ?_⟩
    · rw [hrun]
      simp [getFile_setFile]
    · have h := relLink_in_index hmem r.data now
      rw [hu] at h ⊢
      simpa using h

/-- Witness for C1: a run over two records; record `a`. -/
theorem c1_witness :
    fileExists (run (.parsed (respOf [tcA, tcB])) "T" []).dir
      (tcA.uuid.getD "" ++ ".md") = true ∧
    ∃ idx, getFile (run (.parsed (respOf [tcA, tcB])) "T" []).dir "INDEX.md" = some idx ∧
      hasSeg (relLink (tcA.uuid.getD "")).data idx.data = true :=
  c1_uuid_file_and_index_link (respOf [tcA, tcB]) "T" [] tcA (by decide) (by decide)

/-- C3: the index renders its entries in the order of `pySortDesc`, and
that order is descending in the raw `createdAt` string: a record with a
lexicographically greater key appears strictly earlier, and a record with
an empty/missing key appears strictly after every record with a non-empty
key. -/
theorem c3_index_order :
    (∀ (tcs : List TestCase) (md : Option DataObj) (now : String),
      create_index tcs md now =
        joinNl (indexHeader tcs md now ++ entriesLines 1 (pySortDesc tcs))) ∧
    (∀ (tcs : List TestCase) (i j : Nat),
      i < (pySortDesc tcs).length → j < (pySortDesc tcs).length →
      (strLe (indexKey ((pySortDesc tcs).getD i emptyTC))
          (indexKey ((pySortDesc tcs).getD j emptyTC)) = false → i < j) ∧
      (indexKey ((pySortDesc tcs).getD i emptyTC) = "" →
        indexKey ((pySortDesc tcs).getD j emptyTC) ≠ "" → j < i)) := by
  refine ⟨fun _ _ _ => rfl, ?_⟩
  intro tcs i j hi hj
  have hp := pairwise_pySortDesc tcs
  rw [List.pairwise_iff_getElem] at hp
  constructor
  · intro h
    rcases Nat.lt_trichotomy i j with hlt | heq | hgt
    · exact hlt
    · subst heq
      rw [show strLe (indexKey ((pySortDesc tcs).getD i emptyTC))
          (indexKey ((pySortDesc tcs).getD i emptyTC)) = true from lexLe_refl _] at h
      cases h
    · have := hp j i hj hi hgt
      rw [keyGe] at this
      rw [List.getD_eq_getElem _ _ hi, List.getD_eq_getElem _ _ hj] at h
      rw [this] at h
      cases h
  · intro hei henj
    rcases Nat.lt_trichotomy i j with hlt | heq | hgt
    · have := hp i j hi hj hlt
      rw [keyGe] at this
      rw [List.getD_eq_getElem _ _ hi] at hei
      rw [List.getD_eq_getElem _ _ hj] at henj
      rw [hei] at this
      have hnil : (indexKey ((pySortDesc tcs)[j])).data = [] := by
        have h2 : lexLe (indexKey ((pySortDesc tcs)[j])).data [] = true := by
          simpa [strLe] using this
        exact lexLe_nil_right h2
      have : indexKey ((pySortDesc tcs)[j]) = "" := by
        cases hk : indexKey ((pySortDesc tcs)[j]) with
        | mk l => simp only [hk] at hnil; simp [hnil]
      exact absurd this henj
    · subst heq
      rw [hei] at henj
      exact absurd rfl henj
    · exact hgt

/-- Witness for C3: sorting `[no-date record, dated record]` puts the dated
record first and the empty-key record last. -/
theorem c3_witness :
    (strLe (indexKey ((pySortDesc [tcNoDate, tcA]).getD 0 emptyTC))
      (indexKey ((pySortDesc [tcNoDate, tcA]).getD 1 emptyTC)) = false ∧ (0 : Nat) < 1) ∧
    (indexKey ((pySortDesc [tcNoDate, tcA]).getD 1 emptyTC) = "" ∧ (0 : Nat) < 1) := by
  constructor
  · exact ⟨by decide,
      (c3_index_order.2 [tcNoDate, tcA] 0 1 (by decide) (by decide)).1 (by decide)⟩
  · exact ⟨by decide,
      (c3_index_order.2 [tcNoDate, tcA] 1 0 (by decide) (by decide)).2 (by decide) (by decide)⟩

/-! ## More helper lemmas for the write phase -/

theorem isEmpty_false_of_ne {l : List TestCase} (h : l ≠ []) : l.isEmpty = false := by
  cases l with
  | nil => exact absurd rfl h
  | cons a rest => simp [List.isEmpty]

theorem run_dir_eq (r : Response) (now : String) (dir : Dir)
    (hne : contentOf r ≠ []) :
    (run (.parsed r) now dir).dir =
      setFile (processRecords (contentOf r) (clearMd dir) []).1 "INDEX.md"
        (create_index (contentOf r) r.data now) := by
  simp [run, isEmpty_false_of_ne hne]

theorem processRecords_fst_log : ∀ (tcs : List TestCase) (d : Dir)
    (log1 log2 : List String),
    (processRecords tcs d log1).1 = (processRecords tcs d log2).1 := by
  intro tcs
  induction tcs with
  | nil => intro d log1 log2; rfl
  | cons tc rest ih =>
    intro d log1 log2
    by_cases ht : pyTruthy tc.uuid = true
    · simp only [processRecords, ht, if_pos]
      exact ih _ _ _
    · have ht' : pyTruthy tc.uuid = false := by simpa using ht
      simp only [processRecords, ht', Bool.false_eq_true, if_false]
      exact ih _ _ _

theorem processRecords_filter : ∀ (tcs : List TestCase) (d : Dir) (log : List String),
    (processRecords tcs d log).1 =
      (processRecords (tcs.filter (fun t => pyTruthy t.uuid)) d log).1 := by
  intro tcs
  induction tcs with
  | nil => intro d log; rfl
  | cons tc rest ih =>
    intro d log
    by_cases ht : pyTruthy tc.uuid = true
    · simp only [processRecords, List.filter_cons, ht, if_pos]
      exact ih _ _
    · have ht' : pyTruthy tc.uuid = false := by simpa using ht
      simp only [processRecords, List.filter_cons, ht', Bool.false_eq_true, if_false]
      rw [ih]
      exact processRecords_fst_log _ _ _ _

/-- C9: after a run over a non-empty record list, the only `.md` files left
are `INDEX.md` and the `<uuid>.md` of the input's truthy-uuid records (every
other pre-existing `.md` file was deleted); non-`.md` files are untouched;
and in the concrete two-run scenario `{A, B}` then `{B}`, record A's file is
gone after the second run. -/
theorem c9_full_replace :
    (∀ (r : Response) (now : String) (dir : Dir) (name : String),
      contentOf r ≠ [] → isMdName name = true →
      fileExists (run (.parsed r) now dir).dir name = true →
      name = "INDEX.md" ∨ ∃ tc, tc ∈ contentOf r ∧ pyTruthy tc.uuid = true ∧
        name = tc.uuid.getD "" ++ ".md") ∧
    (∀ (r : Response) (now : String) (dir : Dir) (name : String),
      isMdName name = false →
      getFile (run (.parsed r) now dir).dir name = getFile dir name) ∧
    fileExists (run (.parsed (respOf [tcB])) "T2"
      (run (.parsed (respOf [tcA, tcB])) "T1" []).dir).dir "a.md" = false := by
  refine ⟨?_, ?_, by decide⟩
  · intro r now dir name hne hmd hex
    rw [run_dir_eq r now dir hne] at hex
    by_cases hidx : ("INDEX.md" : String) = name
    · exact Or.inl hidx.symm
    · simp only [fileExists, getFile_setFile, if_neg hidx, getFile_processRecords] at hex
      cases hlw : lastWrite (contentOf r) name with
      | some tc =>
        obtain ⟨hm, h1, h2⟩ := lastWrite_mem hlw
        exact Or.inr ⟨tc, hm, h1, h2.symm⟩
      | none =>
        rw [hlw] at hex
        rw [show (match (none : Option TestCase) with
             | some tc => some (format_test_case tc)
             | none => getFile (clearMd dir) name) = getFile (clearMd dir) name from rfl] at hex
        rw [getFile_clearMd] at hex
        rw [if_pos hmd] at hex
        cases hex
  · intro r now dir name hmd
    by_cases hc : contentOf r = []
    · have hie : (contentOf r).isEmpty = true := by simp [hc]
      simp [run, hie]
    · rw [run_dir_eq r now dir hc]
      have hINDEX : ("INDEX.md" : String) ≠ name := by
        intro hh
        rw [← hh] at hmd
        exact absurd hmd (by decide)
      rw [getFile_setFile, if_neg hINDEX, getFile_processRecords]
      cases hlw : lastWrite (contentOf r) name with
      | some tc =>
        obtain ⟨_, _, h2⟩ := lastWrite_mem hlw
        rw [← h2] at hmd
        rw [isMdName_append_md] at hmd
        cases hmd
      | none =>
        rw [getFile_clearMd, if_neg (by simp [hmd])]

/-- Witness for C9: `b.md` after a run over `[tcB]` is accounted for, and a
non-`.md` file survives a run. -/
theorem c9_witness :
    ("b.md" = "INDEX.md" ∨ ∃ tc, tc ∈ contentOf (respOf [tcB]) ∧
      pyTruthy tc.uuid = true ∧ "b.md" = tc.uuid.getD "" ++ ".md") ∧
    getFile (run (.parsed (respOf [tcB])) "T" [("keep.txt", "x")]).dir "keep.txt" =
      getFile [("keep.txt", "x")] "keep.txt" :=
  ⟨c9_full_replace.1 (respOf [tcB]) "T" [] "b.md" (by decide) (by decide) (by decide),
   c9_full_replace.2.1 (respOf [tcB]) "T" [("keep.txt", "x")] "keep.txt" (by decide)⟩

/-- C10 counterexample: with two records whose shared uuid is `INDEX`, the
file `INDEX.md` ends up holding the generated index, not the rendering of
the last duplicate record — the claim fails for that uuid. -/
theorem c10_counterexample :
    getFile (run (.parsed (respOf [tcI1, tcI2])) "T" []).dir "INDEX.md" ≠
      some (format_test_case tcI2) ∧
    getFile (run (.parsed (respOf [tcI1, tcI2])) "T" []).dir "INDEX.md" =
      some (create_index [tcI1, tcI2] (respOf [tcI1, tcI2]).data "T") := by
  exact ⟨by decide, by decide⟩

/-- C10 amended: for any file name other than `INDEX.md`, the run leaves
exactly the rendering of the last record (in input order) that writes that
name — so duplicated non-`INDEX` uuids resolve to the last duplicate,
silently. -/
theorem c10_duplicate_last_wins (r : Response) (now : String) (dir : Dir)
    (tc : TestCase) (n : String) (hn : n ≠ "INDEX.md")
    (h : lastWrite (contentOf r) n = some tc) :
    getFile (run (.parsed r) now dir).dir n = some (format_test_case tc) := by
  have hne : contentOf r ≠ [] := by
    intro hh
    rw [hh] at h
    cases h
  rw [run_dir_eq r now dir hne, getFile_setFile, if_neg (fun hh => hn hh.symm),
    getFile_processRecords, h]

/-- Witness for C10: duplicated uuid `a`; the later record's rendering is
the one left on disk. -/
theorem c10_witness :
    getFile (run (.parsed (respOf [tcA, tcA2])) "T" []).dir "a.md" =
      some (format_test_case tcA2) :=
  c10_duplicate_last_wins (respOf [tcA, tcA2]) "T" [] tcA2 "a.md" (by decide) (by decide)

/-- C2 counterexample: a record without a uuid is *not* otherwise ignored —
the generated `INDEX.md` still carries an entry for it (`N/A` placeholders
and a dangling link `./N/A.md`), even though no per-record file exists. -/
theorem c2_counterexample :
    getFile (run (.parsed (respOf [tcNoId, tcB])) "T" []).dir "INDEX.md" =
      some (create_index [tcNoId, tcB] (respOf [tcNoId, tcB]).data "T") ∧
    hasSeg "- **UUID**: `N/A`".data
      (create_index [tcNoId, tcB] (respOf [tcNoId, tcB]).data "T").data = true ∧
    hasSeg (relLink "N/A").data
      (create_index [tcNoId, tcB] (respOf [tcNoId, tcB]).data "T").data = true ∧
    fileExists (run (.parsed (respOf [tcNoId, tcB])) "T" []).dir "N/A.md" = false := by
  exact ⟨by decide, by decide, by decide, by decide⟩

/-- C2 amended: a record with an absent/empty uuid is skipped by the write
loop (the loop writes exactly what it writes for the truthy-uuid records
alone, so processing continues), the skip warning is printed — but the
record still receives an `INDEX.md` entry (with an `N/A` link when the uuid
is absent). -/
theorem c2_skip_and_continue (r : Response) (now : String) (dir : Dir)
    (tc : TestCase) (hmem : tc ∈ contentOf r) (ht : pyTruthy tc.uuid = false) :
    skipWarning ∈ (run (.parsed r) now dir).log ∧
    (∀ (tcs : List TestCase) (d : Dir) (log : List String),
      (processRecords tcs d log).1 =
        (processRecords (tcs.filter (fun t => pyTruthy t.uuid)) d log).1) ∧
    (tc.uuid = none →
      hasSeg (relLink "N/A").data (create_index (contentOf r) r.data now).data = true ∧
      getFile (run (.parsed r) now dir).dir "INDEX.md" =
        some (create_index (contentOf r) r.data now)) := by
  have hne : contentOf r ≠ [] := by
    intro hh
    rw [hh] at hmem
    cases hmem
  have hie := isEmpty_false_of_ne hne
  refine ⟨?_, processRecords_filter, ?_⟩
  · have hlog : (run (.parsed r) now dir).log =
        ["📥 API Response received", "   Status: " ++ pyShowOpt r.status] ++
        ["✅ Found " ++ toString (contentOf r).length ++ " test case(s)"] ++
        (processRecords (contentOf r) (clearMd dir) []).2 ++
        ["📋 Created index file",
         "\n🎉 Successfully processed " ++ toString (contentOf r).length ++
           " test cases!"] := by
      simp [run, hie]
    have hwarn : skipWarning ∈ (contentOf r).map (fun t =>
        if pyTruthy t.uuid then "   📝 " ++ t.description.getD "Untitled"
        else skipWarning) :=
      List.mem_map.mpr ⟨tc, hmem, by simp [ht]⟩
    rw [hlog, processRecords_log]
    simp only [List.nil_append, List.mem_append]
    tauto
  · intro hnone
    constructor
    · have h := relLink_in_index hmem r.data now
      rw [hnone] at h
      simpa using h
    · rw [run_dir_eq r now dir hne, getFile_setFile, if_pos rfl]

/-- Witness for C2's amended theorem: record `tcNoId` inside `[tcNoId, tcB]`. -/
theorem c2_witness :
    skipWarning ∈ (run (.parsed (respOf [tcNoId, tcB])) "T" []).log ∧
    hasSeg (relLink "N/A").data
      (create_index (contentOf (respOf [tcNoId, tcB]))
        (respOf [tcNoId, tcB]).data "T").data = true := by
  have h := c2_skip_and_continue (respOf [tcNoId, tcB]) "T" [] tcNoId
    (by decide) (by decide)
  exact ⟨h.1, (h.2.2 rfl).1⟩

/-- C4 counterexample: for a record with every optional field absent, the
rendered Markdown contains no `Created By` line at all — an absent
`createdBy` does not degrade to a creator line with `N/A` placeholders. -/
theorem c4_counterexample :
    format_test_case emptyTC =
      "# Untitled Test Case\n\n## Metadata\n\n- **UUID**: `N/A`\n- **Status**: ✅ Enabled\n- **Created**: N/A\n\n## Test Steps\n\n*No steps defined*\n" ∧
    hasSeg "Created By".data (format_test_case emptyTC).data = false := by
  exact ⟨by decide, by decide⟩

/-- C4 amended: absent `description` renders the `Untitled Test Case`
title, absent `createdAt` renders `N/A`, absent `uuid` renders `N/A`,
absent `customSteps` renders the placeholder line; an absent `createdBy`
produces *no* creator line, while a present `createdBy` object produces one
line with `N/A` placeholders for its missing `name`/`email`. -/
theorem c4_placeholders (tc : TestCase) :
    (tc.description = none → (formatLines tc).head? = some "# Untitled Test Case\n") ∧
    (tc.createdAt = none → (formatLines tc).getD 4 "" = "- **Created**: N/A") ∧
    (tc.uuid = none → (formatLines tc).getD 2 "" = "- **UUID**: `N/A`") ∧
    (tc.createdBy = none → createdByBlock tc = []) ∧
    (∀ p : Person, tc.createdBy = some p → createdByBlock tc =
      ["- **Created By**: " ++ p.name.getD "N/A" ++ " (" ++ p.email.getD "N/A" ++ ")"]) ∧
    (tc.customSteps = none → stepsBlock tc = ["*No steps defined*"]) := by
  refine ⟨?_, ?_, ?_, ?_, ?_, ?_⟩
  · intro h
    simp [formatLines, h]
  · intro h
    simp [formatLines, h, format_timestamp]
  · intro h
    simp [formatLines, h]
  · intro h
    simp [createdByBlock, h]
  · intro p h
    simp [createdByBlock, h]
  · intro h
    simp [stepsBlock, h]

/-- Witness for C4's amended theorem: concrete records with the fields
absent, and a `createdBy` object with absent name and email. -/
theorem c4_witness :
    (formatLines emptyTC).head? = some "# Untitled Test Case\n" ∧
    (formatLines emptyTC).getD 4 "" = "- **Created**: N/A" ∧
    (formatLines emptyTC).getD 2 "" = "- **UUID**: `N/A`" ∧
    createdByBlock emptyTC = [] ∧
    createdByBlock { emptyTC with createdBy := some ⟨none, none⟩ } =
      ["- **Created By**: N/A (N/A)"] ∧
    stepsBlock emptyTC = ["*No steps defined*"] := by
  have h1 := c4_placeholders emptyTC
  have h2 := c4_placeholders { emptyTC with createdBy := some ⟨none, none⟩ }
  exact ⟨h1.1 rfl, h1.2.1 rfl, h1.2.2.1 rfl, h1.2.2.2.1 rfl,
    h2.2.2.2.2.1 ⟨none, none⟩ rfl, h1.2.2.2.2.2 rfl⟩

end TCFmt
